import Mathlib

/-!
Verification development for the loudspeaker frequency-response linearization core.

The development shallowly embeds the signal-conditioning and inversion pipeline
(src/core/inverse_curves.py, src/core/bandpass.py, src/core/target_curves.py,
src/core/linearizer.py).  Numpy arrays become `List ℝ`, Python dicts with known
keys become structures of `Option` fields (a `none` field is an absent key),
exceptions become `Except` values, and the external scipy primitives
(butter/sosfreqz filter evaluation, find_peaks/peak_widths peak detection)
are abstracted as function parameters, as the specification treats them as
primitives with a fixed contract.
-/

noncomputable section

namespace Neumann

/-! ### Generic helpers -/

/-- ASCII lowercase of one character. -/
def charLower (c : Char) : Char :=
  if 'A' ≤ c ∧ c ≤ 'Z' then Char.ofNat (c.toNat + 32) else c

/-- Python's `str.lower()` for the ASCII configuration strings this program
uses (kernel-reducible, unlike `String.toLower`). -/
def pyLower (s : String) : String := ⟨s.data.map charLower⟩

/-- Classical decision of an arbitrary proposition, used to embed numpy boolean
mask computations over real-valued arrays. -/
def cdecide (p : Prop) : Bool := @decide p (Classical.propDecidable p)

theorem cdecide_true_iff (p : Prop) : cdecide p = true ↔ p :=
  @decide_eq_true_iff p (Classical.propDecidable p)

theorem cdecide_false_iff (p : Prop) : cdecide p = false ↔ ¬p := by
  rw [← Bool.not_eq_true, cdecide_true_iff]

/-- Arithmetic mean of a list, `np.mean` (division by zero yields the junk value 0
for the empty list; the code never hits that case on the inputs we consider). -/
def listMean (l : List ℝ) : ℝ := l.sum / l.length

/-- Maximum of a list, `np.max` on a non-empty array (junk value 0 on `[]`). -/
def listMax : List ℝ → ℝ
  | [] => 0
  | [x] => x
  | x :: y :: t => max x (listMax (y :: t))

/-- Minimum of a list, `np.min` on a non-empty array (junk value 0 on `[]`). -/
def listMin : List ℝ → ℝ
  | [] => 0
  | [x] => x
  | x :: y :: t => min x (listMin (y :: t))

/-- Pointwise combination of three aligned arrays. -/
def zipWith3 (f : α → β → γ → δ) : List α → List β → List γ → List δ
  | a :: as, b :: bs, c :: cs => f a b c :: zipWith3 f as bs cs
  | _, _, _ => []

theorem le_listMax (l : List ℝ) : ∀ x ∈ l, x ≤ listMax l := by
  induction l with
  | nil => intro x hx; cases hx
  | cons a t ih =>
    intro x hx
    cases t with
    | nil => simp at hx; simp [listMax, hx]
    | cons b t' =>
      rcases List.mem_cons.mp hx with h | h
      · simp [listMax, h, le_max_iff]
      · exact le_trans (ih x h) (by simp [listMax])

theorem listMin_le (l : List ℝ) : ∀ x ∈ l, listMin l ≤ x := by
  induction l with
  | nil => intro x hx; cases hx
  | cons a t ih =>
    intro x hx
    cases t with
    | nil => simp at hx; simp [listMin, hx]
    | cons b t' =>
      rcases List.mem_cons.mp hx with h | h
      · simp [listMin, h, min_le_iff]
      · exact le_trans (by simp [listMin]) (ih x h)

theorem listMin_le_listMean (l : List ℝ) (hl : l ≠ []) : listMin l ≤ listMean l := by
  have hlen : 0 < (l.length : ℝ) := by
    have : 0 < l.length := List.length_pos.mpr hl
    exact_mod_cast this
  have hsum : (l.length : ℝ) * listMin l ≤ l.sum := by
    have := List.card_nsmul_le_sum l (listMin l) (listMin_le l)
    simpa [nsmul_eq_mul] using this
  rw [listMean, le_div_iff hlen]
  linarith [hsum]

theorem listMean_le_listMax (l : List ℝ) (hl : l ≠ []) : listMean l ≤ listMax l := by
  have hlen : 0 < (l.length : ℝ) := by
    have : 0 < l.length := List.length_pos.mpr hl
    exact_mod_cast this
  have hsum : l.sum ≤ (l.length : ℝ) * listMax l := by
    have := List.sum_le_card_nsmul l (listMax l) (le_listMax l)
    simpa [nsmul_eq_mul] using this
  rw [listMean, div_le_iff hlen]
  linarith [hsum]

/-! ### Curve smoothing (src/core/inverse_curves.py) -/

/-- NullSmoother.smooth: no modification, the magnitudes are returned as-is. -/
def NullSmoother.smooth (frequencies magnitudes : List ℝ) : List ℝ := magnitudes

/-- Band-edge factor `fd = np.sqrt(2) ** (1 / fraction)` of
FractionalOctaveSmoother.smooth. -/
def octaveFd (fraction : ℕ) : ℝ := Real.sqrt 2 ^ ((1 : ℝ) / (fraction : ℝ))

/-- Membership of a frequency in the band around a center frequency used by
FractionalOctaveSmoother.smooth:
`(frequencies >= f_center / fd) & (frequencies <= f_center * fd)`. -/
def octaveBand (fraction : ℕ) (f_center f : ℝ) : Prop :=
  f_center / octaveFd fraction ≤ f ∧ f ≤ f_center * octaveFd fraction

/-- Magnitudes whose aligned frequency satisfies the band predicate; this is
`magnitudes[mask]` for the boolean mask over the frequency grid. -/
def bandMags (inBand : ℝ → Prop) (frequencies magnitudes : List ℝ) : List ℝ :=
  ((frequencies.zip magnitudes).filter (fun q => cdecide (inBand q.1))).map Prod.snd

/-- FractionalOctaveSmoother.smooth: every output sample is the mean of the
input samples whose frequency lies in the fractional-octave band around the
sample's own (center) frequency. -/
def FractionalOctaveSmoother.smooth (fraction : ℕ) (frequencies magnitudes : List ℝ) :
    List ℝ :=
  frequencies.map fun f_center =>
    listMean (bandMags (octaveBand fraction f_center) frequencies magnitudes)

/-- ERB bandwidth `24.7 * ((4.37 * f / 1000) + 1)` of ERBSmoother.smooth. -/
def erbBandwidth (f : ℝ) : ℝ := 24.7 * ((4.37 * f / 1000) + 1)

/-- Band membership used by ERBSmoother.smooth:
`(frequencies >= f_center - bw/2) & (frequencies <= f_center + bw/2)`. -/
def erbBand (f_center f : ℝ) : Prop :=
  f_center - erbBandwidth f_center / 2 ≤ f ∧ f ≤ f_center + erbBandwidth f_center / 2

/-- ERBSmoother.smooth: mean over the equivalent-rectangular-bandwidth band
centered at each sample's own frequency. -/
def ERBSmoother.smooth (frequencies magnitudes : List ℝ) : List ℝ :=
  frequencies.map fun f_center =>
    listMean (bandMags (erbBand f_center) frequencies magnitudes)

/-! ### Notch masking (src/core/inverse_curves.py) -/

/-- NullMasker.apply_notch_mask: the method body is `pass`, so the Python call
returns `None` (not the magnitudes array).  `none` models that return value. -/
def NullMasker.apply_notch_mask (frequencies magnitudes : List ℝ) : Option (List ℝ) :=
  none

/-- Assignment `mask[start:end] = False` on a boolean array, walking the list
with the running index `j` (a Python slice excludes its upper bound). -/
def sliceSetFalse (start stop : ℤ) : List Bool → ℤ → List Bool
  | [], _ => []
  | b :: bs, j => (if start ≤ j ∧ j < stop then false else b) :: sliceSetFalse start stop bs (j + 1)

/-- Mask-building loop of PromNotchMasker._detect_notches (step 4): start from
all-ones, and for every detected peak clear
`mask[max(0, floor(left_ips)) : min(len(frequencies), ceil(right_ips))]`. -/
def PromNotchMasker.buildMask (n : ℕ) (peakBounds : List (ℝ × ℝ)) : List Bool :=
  peakBounds.foldl
    (fun mask p => sliceSetFalse (max 0 ⌊p.1⌋) (min (n : ℤ) ⌈p.2⌉) mask 0)
    (List.replicate n true)

/-- PromNotchMasker._detect_notches: smooth the input with a fractional-octave
smoother at `smooth_fraction`, compute `depth = smoothed - magnitudes`, hand
`depth` to the external prominence-based peak finder (`find_peaks` with the
configured height/prominence/width/rel_height thresholds, abstracted here as
the function `findPeaks` returning the interpolated `(left_ips, right_ips)`
bounds per detected peak), and build the keep-mask from those bounds. -/
def PromNotchMasker.detect_notches (smooth_fraction : ℕ)
    (findPeaks : List ℝ → List (ℝ × ℝ)) (frequencies magnitudes : List ℝ) : List Bool :=
  let smoothed_db := FractionalOctaveSmoother.smooth smooth_fraction frequencies magnitudes
  let depth := List.zipWith (fun s m => s - m) smoothed_db magnitudes
  PromNotchMasker.buildMask frequencies.length (findPeaks depth)

/-- PromNotchMasker.apply_notch_mask: where the keep-mask is false the
magnitude is multiplied by the fixed gain `10 ** (-attenuation_db / 20)`,
elsewhere it is returned unchanged (`np.where(mask, magnitudes, magnitudes * gain)`). -/
def PromNotchMasker.apply_notch_mask (attenuation_db : ℝ) (smooth_fraction : ℕ)
    (findPeaks : List ℝ → List (ℝ × ℝ)) (frequencies magnitudes : List ℝ) : List ℝ :=
  let mask := PromNotchMasker.detect_notches smooth_fraction findPeaks frequencies magnitudes
  let gain := (10 : ℝ) ^ (-attenuation_db / 20)
  List.zipWith (fun b m => if b then m else m * gain) mask magnitudes

/-! ### Regularization filters and inverse-curve calculators
(src/core/inverse_curves.py) -/

/-- The two regularization-filter implementations the factory can return. -/
inductive RegFilterKind
  | highpass
  | lowpass
deriving DecidableEq

/-- RegularizationFilterFactory.get_filter:
`cls._types.get(filter_type.lower(), HighpassRegularizationFilter)()` — an
unrecognized name silently falls back to the highpass filter (the dict-get
default); no error is ever raised. -/
def RegularizationFilterFactory.get_filter (filter_type : String) : RegFilterKind :=
  match pyLower filter_type with
  | "highpass" => .highpass
  | "lowpass" => .lowpass
  | _ => .highpass

/-- SimpleInverseCurveCalculator.compute:
`target_mag / (10 ** (measured_db / 20) + params.get('epsilon', 1e-10))`.
The `epsilon` argument is `some x` when the params dict carries the key. -/
def SimpleInverseCurveCalculator.compute
    (frequencies measured_db target_mag : List ℝ) (epsilon : Option ℝ) : List ℝ :=
  List.zipWith (fun m t => t / ((10 : ℝ) ^ (m / 20) + epsilon.getD 1e-10)) measured_db target_mag

/-- TikhonovInverseCalculator.compute:
`target_mag / (10 ** (measured_db / 20) + beta * b_weight + 1e-10)` with
`beta = params.get('beta', 1e-2)` and `b_weight` the magnitude response of the
regularization filter chosen by `params.get('b_filter_type', 'highpass')`.
The external butter/sosfreqz evaluation of the highpass and lowpass
regularization filters is abstracted as the functions `hpWeight`/`lpWeight`.
Note the additive floor is the literal `1e-10`; no epsilon parameter is read. -/
def TikhonovInverseCalculator.compute (hpWeight lpWeight : ℝ → ℝ)
    (frequencies measured_db target_mag : List ℝ)
    (beta : Option ℝ) (b_filter_type : Option String) : List ℝ :=
  let filter_design := RegularizationFilterFactory.get_filter (b_filter_type.getD "highpass")
  let b_weight : ℝ → ℝ := match filter_design with
    | .highpass => hpWeight
    | .lowpass => lpWeight
  zipWith3 (fun f m t => t / ((10 : ℝ) ^ (m / 20) + beta.getD 1e-2 * b_weight f + 1e-10))
    frequencies measured_db target_mag

/-! ### Bandpass and target curves (src/core/bandpass.py, src/core/target_curves.py) -/

/-- NullBandpass.get_frequency_response: `np.ones_like(frequencies)`. -/
def NullBandpass.get_frequency_response (frequencies : List ℝ) : List ℝ :=
  frequencies.map fun _ => 1

/-- FlatTargetCurve.get_curve: `np.ones_like(frequencies)`. -/
def FlatTargetCurve.get_curve (frequencies : List ℝ) : List ℝ :=
  frequencies.map fun _ => 1

/-- TargetCurveDesigner.design_curve with the FlatTargetCurve base:
`combined = base_curve * bp_response; return combined / np.max(combined)`.
The bandpass implementation is passed as the function `bp` (NullBandpass or
the butterworth response evaluated by the external primitive). -/
def TargetCurveDesigner.design_curve (bp : List ℝ → List ℝ) (frequencies : List ℝ) :
    List ℝ :=
  let base_curve := FlatTargetCurve.get_curve frequencies
  let bp_response := bp frequencies
  let combined := List.zipWith (fun a b => a * b) base_curve bp_response
  combined.map fun c => c / listMax combined

/-! ### Configuration and factory dispatch
(src/core/linearizer.py, src/core/bandpass.py, src/core/inverse_curves.py)

The configuration dict is embedded as a structure of `Option` fields: a field
is `some v` exactly when the corresponding key is present.  Numeric
configuration values are rationals (Python numbers).  `dict[key]` on an absent
key raises `KeyError(key)`; `dict.get(key, default)` substitutes the default. -/

/-- Nested `bandpass_params` dict. -/
structure BandpassParams where
  lowcut_freq : Option ℚ := none
  highcut_freq : Option ℚ := none
  lowcut_order : Option ℕ := none
  highcut_order : Option ℕ := none

/-- Nested `smoothing_params` dict. -/
structure SmoothingParams where
  fraction : Option ℕ := none

/-- Nested `notch_masking_params` dict. -/
structure NotchMaskingParams where
  attenuation_db : Option ℚ := none
  min_depth_db : Option ℚ := none
  prominence_value : Option ℚ := none
  rel_height : Option ℚ := none
  smooth_fraction : Option ℕ := none

/-- Top-level configuration dict handed to `Linearizer(config)`. -/
structure Config where
  fs : Option ℚ := none
  fir_taps : Option ℕ := none
  design_method : Option String := none
  bandpass_type : Option String := none
  bandpass_params : Option BandpassParams := none
  smoothing_type : Option String := none
  smoothing_params : Option SmoothingParams := none
  inverse_method : Option String := none
  notch_masking_type : Option String := none
  notch_masking_params : Option NotchMaskingParams := none

/-- Python exceptions that can escape `Linearizer.__init__`, with structured
payloads standing for the formatted messages. -/
inductive InitError
  | keyError (key : String)
  | unsupportedType (given : String) (available : List String)
  | unsupportedInverse (given : String) (available : List String)
  | missingKeys (missing : List String)
  | attributeErrorNoneGet
  | valueErrorMsg (msg : String)
deriving DecidableEq

/-- Lookup `dict[key]`: an absent key raises `KeyError(key)`. -/
def reqKey (v : Option α) (key : String) : Except InitError α :=
  match v with
  | some x => .ok x
  | none => .error (.keyError key)

/-- Resolved bandpass variant (the constructed IBandpassFilter instance). -/
inductive BandpassResolved
  | null
  | butterworth (fs lowcut_freq highcut_freq : ℚ) (lowcut_order highcut_order : ℕ)
deriving DecidableEq

/-- Resolved smoother variant (the constructed ICurveSmoother instance). -/
inductive SmootherResolved
  | null
  | octave (fraction : Option ℕ)
  | erb
deriving DecidableEq

/-- Resolved inverse-curve calculator. -/
inductive CalculatorResolved
  | simple
  | tikhonov
deriving DecidableEq

/-- Resolved notch masker (the constructed INotchMasker instance). -/
inductive MaskerResolved
  | null
  | prominence (attenuation_db min_depth_db prominence_value rel_height : ℚ)
      (smooth_fraction : ℕ)
deriving DecidableEq

/-- BandpassFactory.get_bandpass.  Note that the `constructor_args` dict
literal in the source is evaluated eagerly for every variant, so
`config['fs']` and `config['bandpass_params'][...]` are read (and can raise
`KeyError`) even when the requested type is `null`.  The ButterworthBandpass
constructor's lowcut/highcut ordering check is performed on instantiation;
the external `butter` coefficient synthesis always succeeds. -/
def BandpassFactory.get_bandpass (config : Config) : Except InitError BandpassResolved := do
  let t ← reqKey config.bandpass_type "bandpass_type"
  let bandpass_type := pyLower t
  if bandpass_type = "null" ∨ bandpass_type = "butterworth" then do
    let fs ← reqKey config.fs "fs"
    let bp ← reqKey config.bandpass_params "bandpass_params"
    let lowcut_freq ← reqKey bp.lowcut_freq "lowcut_freq"
    let highcut_freq ← reqKey bp.highcut_freq "highcut_freq"
    let lowcut_order := bp.lowcut_order.getD 4
    let highcut_order := bp.highcut_order.getD 2
    if bandpass_type = "butterworth" then
      if lowcut_freq ≥ highcut_freq then
        Except.error (.valueErrorMsg "Highcut frequency must be above Lowcut frequency")
      else
        pure (.butterworth fs lowcut_freq highcut_freq lowcut_order highcut_order)
    else
      pure .null
  else
    Except.error (.unsupportedType bandpass_type ["null", "butterworth"])

/-- CurveSmootherFactory.get_smoother.  The eager `constructor_args` dict
evaluates `config.get('smoothing_params').get('fraction')`, which raises
`AttributeError` (`None.get`) when `smoothing_params` is absent, for every
variant. -/
def CurveSmootherFactory.get_smoother (config : Config) : Except InitError SmootherResolved := do
  let t ← reqKey config.smoothing_type "smoothing_type"
  let smoother_type := pyLower t
  if smoother_type = "null" ∨ smoother_type = "octave" ∨ smoother_type = "erb" then do
    match config.smoothing_params with
    | none => Except.error .attributeErrorNoneGet
    | some sp =>
      if smoother_type = "octave" then pure (.octave sp.fraction)
      else if smoother_type = "erb" then pure .erb
      else pure .null
  else
    Except.error (.unsupportedType smoother_type ["null", "octave", "erb"])

/-- InverseCurveCalculatorFactory.get_calculator: unsupported method names
raise `ValueError` listing the valid identifiers. -/
def InverseCurveCalculatorFactory.get_calculator (method : String) :
    Except InitError CalculatorResolved :=
  match pyLower method with
  | "simple" => .ok .simple
  | "tikhonov" => .ok .tikhonov
  | _ => .error (.unsupportedInverse method ["simple", "tikhonov"])

/-- NotchMaskerFactory.get_masker.  The eager `constructor_args` dict reads
`config['notch_masking_params']` and all five nested keys for every variant. -/
def NotchMaskerFactory.get_masker (config : Config) : Except InitError MaskerResolved := do
  let t ← reqKey config.notch_masking_type "notch_masking_type"
  let masker_type := pyLower t
  if masker_type = "null" ∨ masker_type = "prominence" then do
    let p ← reqKey config.notch_masking_params "notch_masking_params"
    let attenuation_db ← reqKey p.attenuation_db "attenuation_db"
    let min_depth_db ← reqKey p.min_depth_db "min_depth_db"
    let prominence_value ← reqKey p.prominence_value "prominence"
    let rel_height ← reqKey p.rel_height "rel_height"
    let smooth_fraction ← reqKey p.smooth_fraction "smooth_fraction"
    if masker_type = "prominence" then
      pure (.prominence attenuation_db min_depth_db prominence_value rel_height smooth_fraction)
    else
      pure .null
  else
    Except.error (.unsupportedType masker_type ["null", "prominence"])

/-- The seven required keys checked by Linearizer._validate_config, in source
order. -/
def requiredKeys : List String :=
  ["fs", "fir_taps", "design_method", "bandpass_type", "smoothing_type",
   "inverse_method", "notch_masking_type"]

/-- Membership test `element in self.config` for the required keys. -/
def Config.hasKey (c : Config) : String → Bool
  | "fs" => c.fs.isSome
  | "fir_taps" => c.fir_taps.isSome
  | "design_method" => c.design_method.isSome
  | "bandpass_type" => c.bandpass_type.isSome
  | "smoothing_type" => c.smoothing_type.isSome
  | "inverse_method" => c.inverse_method.isSome
  | "notch_masking_type" => c.notch_masking_type.isSome
  | _ => false

/-- Linearizer._validate_config: collect the required keys absent from the
config and raise `ValueError(f"Missing required config keys: {missing}")`
when the list is non-empty. -/
def Linearizer.validate_config (config : Config) : Except InitError Unit :=
  let missing := requiredKeys.filter (fun k => !(config.hasKey k))
  if missing.isEmpty then .ok () else .error (.missingKeys missing)

/-- The component instances a successfully constructed Linearizer holds. -/
structure LinearizerResolved where
  bandpass : BandpassResolved
  smoother : SmootherResolved
  inverse_curve_calculator : CalculatorResolved
  masker : MaskerResolved
deriving DecidableEq

/-- Linearizer.__init__: the four factories run first, in source order, and
only then `_validate_config` checks for missing required keys.
`inverse_method` is read with the soft default
`config.get('inverse_method', 'tikhonov')`. -/
def Linearizer.init (config : Config) : Except InitError LinearizerResolved := do
  let bandpass ← BandpassFactory.get_bandpass config
  let smoother ← CurveSmootherFactory.get_smoother config
  let inverse_curve_calculator ←
    InverseCurveCalculatorFactory.get_calculator (config.inverse_method.getD "tikhonov")
  let masker ← NotchMaskerFactory.get_masker config
  Linearizer.validate_config config
  pure ⟨bandpass, smoother, inverse_curve_calculator, masker⟩

/-! ### Linearizer.calculate_inverse_response (src/core/linearizer.py) -/

/-- Python exceptions observable from Linearizer.calculate_inverse_response. -/
inductive PyError
  | valueError (msg : String)
  | attributeErrorNoneFrequencies
  | attributeErrorNoTargetMag
deriving DecidableEq

/-- Measurement loaded by the external data loader. -/
structure Measurement where
  frequencies : List ℝ
  db_values : List ℝ

/-- The mutable per-pipeline fields of the Linearizer that
calculate_inverse_response reads and writes. -/
structure LinearizerState where
  data : Option Measurement
  target_filter_response_db : Option (List ℝ)
  target_mag : Option (List ℝ)

/-- Linearizer.calculate_inverse_response.  The guard line
`ValueError("Data must be loaded first!")` merely constructs the exception
object without `raise`, so it has no control-flow effect and is not part of
this translation's behavior.  With `data` still `None`, execution continues
into the inversion call, whose argument `self.data.frequencies` then raises
`AttributeError` (`None` has no attribute `frequencies`); `self.target_mag`
raises `AttributeError` when design_target_curve has never set the attribute.
The configured calculator applied to the `inverse_params` is abstracted as
`calc_ : frequencies → measured_db → target_mag → inverse_response`; on
success the method stores `20 * log10(inverse_response)` back into
`target_filter_response_db` and returns the inverse response. -/
def Linearizer.calculate_inverse_response
    (calc_ : List ℝ → List ℝ → List ℝ → List ℝ) (st : LinearizerState) :
    Except PyError (List ℝ × LinearizerState) :=
  match st.data with
  | none => .error .attributeErrorNoneFrequencies
  | some data =>
    match st.target_mag with
    | none => .error .attributeErrorNoTargetMag
    | some target_mag =>
      let inverse_response :=
        match st.target_filter_response_db with
        | some target_db => calc_ data.frequencies target_db target_mag
        | none => calc_ data.frequencies data.db_values target_mag
      let st' := { st with
        target_filter_response_db :=
          some (inverse_response.map fun x => 20 * Real.logb 10 x) }
      .ok (inverse_response, st')

/-! ### Spec-side rendering of the notch keep-mask, and concrete configurations -/

/-- Keep-mask as the specification words it: true everywhere except at the
integer indices lying inside the closed interval
`[floor(left_bound_i), ceil(right_bound_i)]` (clamped to the grid) for every
detected peak i.  This definition follows the spec sentence, not the code; it
exists to be compared against `PromNotchMasker.buildMask`. -/
def specClosedKeepMask (n : ℕ) (peakBounds : List (ℝ × ℝ)) : List Bool :=
  (List.range n).map fun (j : ℕ) =>
    !cdecide (∃ p ∈ peakBounds, max 0 ⌊p.1⌋ ≤ (j : ℤ) ∧ (j : ℤ) ≤ min ((n : ℤ) - 1) ⌈p.2⌉)

/-- Configuration that is complete except for the `bandpass_type` key. -/
def cfgNoBandpassType : Config :=
  { fs := some 48000, fir_taps := some 255, design_method := some "firls",
    bandpass_type := none,
    bandpass_params := some { lowcut_freq := some 125, highcut_freq := some 20000,
                              lowcut_order := some 4, highcut_order := some 2 },
    smoothing_type := some "null", smoothing_params := some {},
    inverse_method := some "simple",
    notch_masking_type := some "null",
    notch_masking_params := some { attenuation_db := some 10, min_depth_db := some 6,
                                   prominence_value := some 3, rel_height := some (1/2),
                                   smooth_fraction := some 3 } }

/-- Family of configurations whose factory-consumed keys are all present (all
variant selectors `null`), with the `fir_taps`, `design_method` and
`inverse_method` keys left variable. -/
def cfgNullVariants (fir_taps : Option ℕ) (design_method inverse_method : Option String) :
    Config :=
  { fs := some 48000, fir_taps := fir_taps, design_method := design_method,
    bandpass_type := some "null",
    bandpass_params := some { lowcut_freq := some 125, highcut_freq := some 20000 },
    smoothing_type := some "null", smoothing_params := some {},
    inverse_method := inverse_method,
    notch_masking_type := some "null",
    notch_masking_params := some { attenuation_db := some 10, min_depth_db := some 6,
                                   prominence_value := some 3, rel_height := some (1/2),
                                   smooth_fraction := some 3 } }

/-- Butterworth configuration whose lowcut frequency is not below its highcut
frequency. -/
def cfgButterBadOrder : Config :=
  { fs := some 48000, fir_taps := some 255, design_method := some "firls",
    bandpass_type := some "butterworth",
    bandpass_params := some { lowcut_freq := some 20000, highcut_freq := some 125,
                              lowcut_order := some 4, highcut_order := some 2 },
    smoothing_type := some "null", smoothing_params := some {},
    inverse_method := some "simple",
    notch_masking_type := some "null",
    notch_masking_params := some { attenuation_db := some 10, min_depth_db := some 6,
                                   prominence_value := some 3, rel_height := some (1/2),
                                   smooth_fraction := some 3 } }

/-! ## Theorems -/

/-- C1: For every frequency grid and every dB magnitude array, the NotchMasker
configured with the null variant is claimed to return its input unchanged from
apply_notch_mask.  The code does not: the method body is `pass`, so the call
returns `None` rather than the magnitudes array.  Evaluated at the failing
input `frequencies = [100, 200]`, `magnitudes = [1, 2]`. -/
theorem C1_null_masker_returns_none :
    NullMasker.apply_notch_mask [100, 200] [1, 2] = none ∧
    NullMasker.apply_notch_mask [100, 200] [1, 2] ≠ some [1, 2] := by
  refine ⟨rfl, ?_⟩
  simp [NullMasker.apply_notch_mask]

/-- C9: When calculate_inverse_response runs with no measurement loaded
(`data = None`), the `ValueError("Data must be loaded first!")` guard never
aborts the call: the exception is constructed but not raised, so the call
cannot fail with that ValueError; execution continues into the inversion step,
where the argument `self.data.frequencies` raises AttributeError instead. -/
theorem C9_dead_missing_data_guard
    (calc_ : List ℝ → List ℝ → List ℝ → List ℝ) (st : LinearizerState)
    (h : st.data = none) :
    Linearizer.calculate_inverse_response calc_ st =
        .error .attributeErrorNoneFrequencies ∧
    ∀ msg, Linearizer.calculate_inverse_response calc_ st ≠ .error (.valueError msg) := by
  unfold Linearizer.calculate_inverse_response
  rw [h]
  exact ⟨rfl, fun msg hcontra => by simp at hcontra⟩

/-- Witness for C9 at a concrete pipeline state with no data loaded. -/
theorem C9_dead_missing_data_guard_witness :
    Linearizer.calculate_inverse_response (fun _ _ t => t)
        ⟨none, none, none⟩ = .error .attributeErrorNoneFrequencies ∧
    Linearizer.calculate_inverse_response (fun _ _ t => t)
        ⟨none, none, none⟩ ≠ .error (.valueError "Data must be loaded first!") :=
  ⟨(C9_dead_missing_data_guard (fun _ _ t => t) ⟨none, none, none⟩ rfl).1,
   (C9_dead_missing_data_guard (fun _ _ t => t) ⟨none, none, none⟩ rfl).2
     "Data must be loaded first!"⟩

/-- C2, counterexample: a configuration missing only the `bandpass_type` key
does not fail with the ValueError listing the missing keys — construction
aborts earlier inside BandpassFactory.get_bandpass with `KeyError('bandpass_type')`,
because the four factories run before `_validate_config`. -/
theorem C2_counterexample_keyerror_first :
    Linearizer.init cfgNoBandpassType = .error (.keyError "bandpass_type") ∧
    Linearizer.init cfgNoBandpassType ≠ .error (.missingKeys ["bandpass_type"]) := by
  refine ⟨rfl, ?_⟩
  intro h
  rw [show Linearizer.init cfgNoBandpassType = .error (.keyError "bandpass_type") from rfl] at h
  simp at h

/-- C2, amended: construction runs the four component factories before
`_validate_config`, and the factories eagerly read `bandpass_type`, `fs`,
`bandpass_params` (with its frequencies), `smoothing_type`, `smoothing_params`,
`notch_masking_type` and `notch_masking_params` (with its five keys), raising
`KeyError`/`AttributeError` when those are absent.  Only for configurations
that pass the factories does `_validate_config` run; it then raises a
ValueError listing exactly the still-missing required keys (any subset of
`fir_taps`, `design_method`, `inverse_method`), in the source order of
`required_keys`, and construction succeeds when none are missing. -/
theorem C2_amended_validate_after_factories (fir_taps : Option ℕ)
    (design_method inverse_method : Option String)
    (hinv : inverse_method = none ∨ inverse_method = some "simple") :
    Linearizer.init (cfgNullVariants fir_taps design_method inverse_method) =
      if fir_taps.isSome ∧ design_method.isSome ∧ inverse_method.isSome then
        .ok ⟨.null, .null, .simple, .null⟩
      else
        .error (.missingKeys
          ((if fir_taps.isSome then [] else ["fir_taps"]) ++
           (if design_method.isSome then [] else ["design_method"]) ++
           (if inverse_method.isSome then [] else ["inverse_method"]))) := by
  rcases hinv with rfl | rfl <;> cases fir_taps <;> cases design_method <;> rfl

/-- Witness for C2 at a concrete configuration missing `fir_taps`,
`design_method` and `inverse_method`. -/
theorem C2_amended_witness :
    Linearizer.init (cfgNullVariants none none none) =
      .error (.missingKeys ["fir_taps", "design_method", "inverse_method"]) := by
  have h := C2_amended_validate_after_factories none none none (Or.inl rfl)
  simpa using h

theorem zipWith3_const_first (g : β → γ → δ) :
    ∀ (as : List α) (bs : List β) (cs : List γ), bs.length ≤ as.length →
      zipWith3 (fun _ b c => g b c) as bs cs = List.zipWith g bs cs := by
  intro as bs
  induction bs generalizing as with
  | nil =>
    intro cs _
    cases as <;> cases cs <;> rfl
  | cons b bs ih =>
    intro cs hlen
    cases as with
    | nil => simp at hlen
    | cons a as =>
      cases cs with
      | nil => rfl
      | cons c cs =>
        simp only [zipWith3, List.zipWith]
        exact congrArg _ (ih as cs (Nat.le_of_succ_le_succ hlen))

/-- C3, counterexample: with `beta = 0` and a common epsilon parameter value of
1 passed to both calculators, the tikhonov result differs from the simple
result, because TikhonovInverseCalculator.compute never reads an `epsilon`
parameter — its additive floor is the fixed literal `1e-10`.  Input:
frequencies [100], measured_db [0], target_mag [1]. -/
theorem C3_counterexample_epsilon_ignored :
    TikhonovInverseCalculator.compute (fun _ => 0) (fun _ => 0)
        [100] [0] [1] (some 0) none ≠
      SimpleInverseCurveCalculator.compute [100] [0] [1] (some 1) := by
  intro h
  simp only [TikhonovInverseCalculator.compute, SimpleInverseCurveCalculator.compute,
    RegularizationFilterFactory.get_filter, Option.getD_some, zipWith3, List.zipWith,
    List.cons.injEq, and_true] at h
  rw [zero_div, Real.rpow_zero, zero_mul, add_zero] at h
  have : (1 : ℝ) / (1 + 1e-10) ≠ 1 / (1 + 1) := by norm_num
  exact this h

/-- C3, amended: the tikhonov inverter computes
`target_linear / (measured_linear + beta * B(f) + 1e-10)` with the additive
floor fixed at `1e-10` (it accepts no epsilon parameter), and with `beta = 0`
its result equals the simple inverter's result exactly when the simple
inverter's epsilon is `1e-10` (which is also the simple inverter's default). -/
theorem C3_amended_beta_zero_degenerates (hpWeight lpWeight : ℝ → ℝ)
    (b_filter_type : Option String) (frequencies measured_db target_mag : List ℝ)
    (hlen : measured_db.length ≤ frequencies.length) :
    TikhonovInverseCalculator.compute hpWeight lpWeight
        frequencies measured_db target_mag (some 0) b_filter_type =
      SimpleInverseCurveCalculator.compute frequencies measured_db target_mag
        (some 1e-10) := by
  unfold TikhonovInverseCalculator.compute SimpleInverseCurveCalculator.compute
  simp only [Option.getD_some]
  have hfun :
      (fun (f m t : ℝ) =>
          t / ((10 : ℝ) ^ (m / 20) +
            0 * (match RegularizationFilterFactory.get_filter
                  (b_filter_type.getD "highpass") with
                 | .highpass => hpWeight
                 | .lowpass => lpWeight) f + 1e-10)) =
        fun (_ m t : ℝ) => t / ((10 : ℝ) ^ (m / 20) + 1e-10) := by
    funext f m t
    rw [zero_mul, add_zero]
  rw [hfun]
  exact zipWith3_const_first _ frequencies measured_db target_mag hlen

/-- Witness for C3's amended theorem at a one-sample input. -/
theorem C3_amended_witness :
    TikhonovInverseCalculator.compute (fun _ => 0) (fun _ => 0)
        [100] [0] [1] (some 0) none =
      SimpleInverseCurveCalculator.compute [100] [0] [1] (some 1e-10) :=
  C3_amended_beta_zero_degenerates (fun _ => 0) (fun _ => 0) none
    [100] [0] [1] (by simp)

/-- C5, counterexample: an unsupported regularization-filter variant name does
not raise a configuration error — RegularizationFilterFactory.get_filter
silently falls back to the highpass implementation (the `dict.get` default),
so the tikhonov inverter computes exactly what it would with
`b_filter_type = 'highpass'`.  Input: `b_filter_type = "bogus"`, frequencies
[100], measured_db [0], target_mag [1]. -/
theorem C5_counterexample_silent_default :
    RegularizationFilterFactory.get_filter "bogus" = RegFilterKind.highpass ∧
    "bogus" ∉ ["highpass", "lowpass"] ∧
    TikhonovInverseCalculator.compute (fun f => f) (fun _ => 0)
        [100] [0] [1] none (some "bogus") =
      TikhonovInverseCalculator.compute (fun f => f) (fun _ => 0)
        [100] [0] [1] none (some "highpass") :=
  ⟨rfl, by decide, rfl⟩

/-- C5, amended: missing-key and unsupported-variant configuration errors are
fatal at construction or first use for the bandpass/smoother/inverse-method/
masker factories — in particular an unsupported inverse method raises a
ValueError naming the valid identifiers, and a butterworth bandpass whose
lowcut frequency is not strictly below its highcut frequency raises a
ValueError at construction — but an unsupported `b_filter_type` passed to the
tikhonov inverter is the exception: it is silently defaulted to the highpass
regularization filter instead of raising. -/
theorem C5_amended_error_taxonomy :
    (∀ method : String, pyLower method ≠ "simple" → pyLower method ≠ "tikhonov" →
      InverseCurveCalculatorFactory.get_calculator method =
        .error (.unsupportedInverse method ["simple", "tikhonov"])) ∧
    (∀ filter_type : String, pyLower filter_type ≠ "highpass" →
        pyLower filter_type ≠ "lowpass" →
      RegularizationFilterFactory.get_filter filter_type = .highpass) ∧
    (∀ (config : Config) (bp : BandpassParams) (fsv lf hf : ℚ),
      config.bandpass_type = some "butterworth" → config.fs = some fsv →
      config.bandpass_params = some bp → bp.lowcut_freq = some lf →
      bp.highcut_freq = some hf → hf ≤ lf →
      BandpassFactory.get_bandpass config =
        .error (.valueErrorMsg "Highcut frequency must be above Lowcut frequency")) := by
  refine ⟨?_, ?_, ?_⟩
  · intro method h1 h2
    unfold InverseCurveCalculatorFactory.get_calculator
    split
    · rename_i heq; exact absurd heq h1
    · rename_i heq; exact absurd heq h2
    · rfl
  · intro filter_type h1 h2
    unfold RegularizationFilterFactory.get_filter
    split
    · rename_i heq; exact absurd heq h1
    · rename_i heq; exact absurd heq h2
    · rfl
  · intro config bp fsv lf hf h1 h2 h3 h4 h5 h6
    simp [BandpassFactory.get_bandpass, reqKey, h1, h2, h3, h4, h5, h6,
      Bind.bind, Except.bind, pyLower, charLower, throw, throwThe, ExceptT.mk]

/-- Witness for C5's amended theorem: an unsupported inverse method, an
unsupported regularization-filter name, and a butterworth configuration with
lowcut 20000 Hz above highcut 125 Hz. -/
theorem C5_amended_witness :
    InverseCurveCalculatorFactory.get_calculator "butter" =
        .error (.unsupportedInverse "butter" ["simple", "tikhonov"]) ∧
    RegularizationFilterFactory.get_filter "bandstop" = .highpass ∧
    BandpassFactory.get_bandpass cfgButterBadOrder =
      .error (.valueErrorMsg "Highcut frequency must be above Lowcut frequency") :=
  ⟨C5_amended_error_taxonomy.1 "butter" (by decide) (by decide),
   C5_amended_error_taxonomy.2.1 "bandstop" (by decide) (by decide),
   C5_amended_error_taxonomy.2.2 cfgButterBadOrder
     { lowcut_freq := some 20000, highcut_freq := some 125,
       lowcut_order := some 4, highcut_order := some 2 }
     48000 20000 125 rfl rfl rfl rfl rfl (by norm_num)⟩

theorem sliceSetFalse_length (start stop : ℤ) :
    ∀ (l : List Bool) (j : ℤ), (sliceSetFalse start stop l j).length = l.length := by
  intro l
  induction l with
  | nil => intro j; rfl
  | cons b bs ih => intro j; simp [sliceSetFalse, ih]

theorem sliceSetFalse_getElem? (start stop : ℤ) :
    ∀ (l : List Bool) (j : ℤ) (i : ℕ),
      (sliceSetFalse start stop l j)[i]? =
        (l[i]?).map fun b => if start ≤ j + i ∧ j + i < stop then false else b := by
  intro l
  induction l with
  | nil => intro j i; simp [sliceSetFalse]
  | cons b bs ih =>
    intro j i
    cases i with
    | zero => simp [sliceSetFalse]
    | succ i =>
      simp only [sliceSetFalse, List.getElem?_cons_succ]
      rw [ih (j + 1) i]
      have harith : j + 1 + (i : ℤ) = j + ((i + 1 : ℕ) : ℤ) := by push_cast; ring
      rw [harith]

theorem foldl_sliceSetFalse_length (n : ℕ) :
    ∀ (peaks : List (ℝ × ℝ)) (mask : List Bool),
      (peaks.foldl (fun m p => sliceSetFalse (max 0 ⌊p.1⌋) (min (n : ℤ) ⌈p.2⌉) m 0)
        mask).length = mask.length := by
  intro peaks
  induction peaks with
  | nil => intro mask; rfl
  | cons p ps ih => intro mask; rw [List.foldl_cons, ih, sliceSetFalse_length]

theorem buildMask_length (n : ℕ) (peaks : List (ℝ × ℝ)) :
    (PromNotchMasker.buildMask n peaks).length = n := by
  unfold PromNotchMasker.buildMask
  rw [foldl_sliceSetFalse_length, List.length_replicate]

theorem foldl_sliceSetFalse_getElem?_false (n : ℕ) :
    ∀ (peaks : List (ℝ × ℝ)) (mask : List Bool) (i : ℕ), i < mask.length →
      ((peaks.foldl (fun m p => sliceSetFalse (max 0 ⌊p.1⌋) (min (n : ℤ) ⌈p.2⌉) m 0)
          mask)[i]? = some false ↔
        mask[i]? = some false ∨
          ∃ p ∈ peaks, max 0 ⌊p.1⌋ ≤ (i : ℤ) ∧ (i : ℤ) < min (n : ℤ) ⌈p.2⌉) := by
  intro peaks
  induction peaks with
  | nil => intro mask i hi; simp
  | cons p ps ih =>
    intro mask i hi
    rw [List.foldl_cons,
      ih _ i (by rw [sliceSetFalse_length]; exact hi),
      sliceSetFalse_getElem?]
    obtain ⟨b, hb⟩ : ∃ b, mask[i]? = some b :=
      ⟨mask[i], List.getElem?_eq_getElem hi⟩
    rw [hb]
    simp only [Option.map_some', Option.some.injEq, zero_add, List.mem_cons]
    by_cases hc : max 0 ⌊p.1⌋ ≤ (i : ℤ) ∧ (i : ℤ) < min (n : ℤ) ⌈p.2⌉
    · simp only [hc, if_true]
      constructor
      · intro _; right; exact ⟨p, Or.inl rfl, hc⟩
      · intro _; left; rfl
    · simp only [hc, if_false]
      constructor
      · rintro (hbf | hex)
        · exact Or.inl hbf
        · right; obtain ⟨q, hq, hrange⟩ := hex; exact ⟨q, Or.inr hq, hrange⟩
      · rintro (hbf | hex)
        · exact Or.inl hbf
        · obtain ⟨q, hq | hq, hrange⟩ := hex
          · exact absurd (hq ▸ hrange) hc
          · exact Or.inr ⟨q, hq, hrange⟩

theorem buildMask_getElem?_false (n : ℕ) (peaks : List (ℝ × ℝ)) (i : ℕ) (hi : i < n) :
    (PromNotchMasker.buildMask n peaks)[i]? = some false ↔
      ∃ p ∈ peaks, max 0 ⌊p.1⌋ ≤ (i : ℤ) ∧ (i : ℤ) < min (n : ℤ) ⌈p.2⌉ := by
  unfold PromNotchMasker.buildMask
  rw [foldl_sliceSetFalse_getElem?_false n peaks _ i (by simpa using hi)]
  simp [List.getElem?_replicate, hi]

/-- C4, counterexample: for a detected peak with interpolated bounds
`(left_ips, right_ips) = (1, 3)` on a 5-point grid, the code's keep-mask is
false only on indices {1, 2} (the slice `mask[1:3]` excludes its upper bound),
whereas the claim's closed interval `[floor(1), ceil(3)] = [1, 3]` demands
index 3 be masked as well: the code keeps index 3 unchanged. -/
theorem C4_counterexample_closed_interval :
    (PromNotchMasker.buildMask 5 [((1 : ℝ), 3)])[3]? = some true ∧
    (specClosedKeepMask 5 [((1 : ℝ), 3)])[3]? = some false ∧
    PromNotchMasker.buildMask 5 [((1 : ℝ), 3)] ≠ specClosedKeepMask 5 [((1 : ℝ), 3)] := by
  have hfl : ⌊((1 : ℝ), (3 : ℝ)).1⌋ = 1 := by norm_num
  have hce : ⌈((1 : ℝ), (3 : ℝ)).2⌉ = 3 := by norm_num
  have h1 : (PromNotchMasker.buildMask 5 [((1 : ℝ), 3)])[3]? = some true := by
    have hlen3 : (3 : ℕ) < (PromNotchMasker.buildMask 5 [((1 : ℝ), 3)]).length := by
      rw [buildMask_length]; norm_num
    rw [List.getElem?_eq_getElem hlen3]
    have hiff := buildMask_getElem?_false 5 [((1 : ℝ), 3)] 3 (by norm_num)
    rw [List.getElem?_eq_getElem hlen3] at hiff
    cases hba : (PromNotchMasker.buildMask 5 [((1 : ℝ), 3)])[3] with
    | false =>
      exfalso
      obtain ⟨p, hp, hrange⟩ := hiff.mp (by rw [hba])
      rw [List.mem_singleton] at hp
      subst hp
      rw [hce] at hrange
      omega
    | true => rfl
  have h2 : (specClosedKeepMask 5 [((1 : ℝ), 3)])[3]? = some false := by
    unfold specClosedKeepMask
    rw [List.getElem?_map, List.getElem?_range (by norm_num : (3 : ℕ) < 5)]
    simp only [Option.map_some']
    have hP : cdecide (∃ p ∈ [((1 : ℝ), (3 : ℝ))],
        max 0 ⌊p.1⌋ ≤ ((3 : ℕ) : ℤ) ∧ ((3 : ℕ) : ℤ) ≤ min (((5 : ℕ) : ℤ) - 1) ⌈p.2⌉) = true :=
      (cdecide_true_iff _).mpr ⟨((1 : ℝ), (3 : ℝ)), List.mem_singleton.mpr rfl, by
        rw [hfl, hce]; omega⟩
    rw [hP]
    rfl
  refine ⟨h1, h2, ?_⟩
  intro h
  rw [h, h2] at h1
  simp at h1

/-- C4, amended: for every frequency grid, dB magnitude array (aligned with
the grid) and peak-finder output, the prominence masker's output equals the
input where the keep-mask is true and equals input times `10^(-attenuation_db/20)`
where it is false — but the keep-mask is false exactly at the integer indices
of the HALF-OPEN interval `[floor(left_bound_i), ceil(right_bound_i))`
(clamped to the grid) for some detected peak i: the index `ceil(right_bound_i)`
itself stays unmasked, because the Python slice `mask[start:end]` excludes `end`. -/
theorem C4_amended_halfopen_mask (attenuation_db : ℝ) (smooth_fraction : ℕ)
    (findPeaks : List ℝ → List (ℝ × ℝ)) (frequencies magnitudes : List ℝ)
    (hlen : frequencies.length = magnitudes.length) (j : ℕ)
    (hj : j < frequencies.length) :
    ∃ b : Bool,
      (PromNotchMasker.detect_notches smooth_fraction findPeaks
          frequencies magnitudes)[j]? = some b ∧
      (PromNotchMasker.apply_notch_mask attenuation_db smooth_fraction findPeaks
          frequencies magnitudes)[j]? =
        some (if b then magnitudes.getD j 0
              else magnitudes.getD j 0 * (10 : ℝ) ^ (-attenuation_db / 20)) ∧
      (b = false ↔ ∃ p ∈ findPeaks (List.zipWith (fun s m => s - m)
            (FractionalOctaveSmoother.smooth smooth_fraction frequencies magnitudes)
            magnitudes),
          max 0 ⌊p.1⌋ ≤ (j : ℤ) ∧ (j : ℤ) < min (frequencies.length : ℤ) ⌈p.2⌉) := by
  have hmlen : (PromNotchMasker.detect_notches smooth_fraction findPeaks
      frequencies magnitudes).length = frequencies.length := by
    unfold PromNotchMasker.detect_notches
    exact buildMask_length _ _
  have hjm : j < (PromNotchMasker.detect_notches smooth_fraction findPeaks
      frequencies magnitudes).length := by rw [hmlen]; exact hj
  have hjmag : j < magnitudes.length := hlen ▸ hj
  refine ⟨(PromNotchMasker.detect_notches smooth_fraction findPeaks
      frequencies magnitudes)[j], List.getElem?_eq_getElem hjm, ?_, ?_⟩
  · unfold PromNotchMasker.apply_notch_mask
    rw [List.getElem?_zipWith, List.getElem?_eq_getElem hjm,
      List.getElem?_eq_getElem hjmag]
    rw [List.getD_eq_getElem?_getD, List.getElem?_eq_getElem hjmag]
    rfl
  · rw [← Option.some_inj, ← List.getElem?_eq_getElem hjm]
    unfold PromNotchMasker.detect_notches
    exact buildMask_getElem?_false frequencies.length _ j hj

/-- Witness for C4's amended theorem on a concrete 5-point grid with one
detected peak with bounds (1, 3): index 1 is masked, so the output sample is
the input times the linear gain. -/
theorem C4_amended_witness :
    (PromNotchMasker.detect_notches 12 (fun _ => [((1 : ℝ), 3)])
        [100, 200, 300, 400, 500] [0, 0, 0, 0, 0])[1]? = some false ∧
    (PromNotchMasker.apply_notch_mask 10 12 (fun _ => [((1 : ℝ), 3)])
        [100, 200, 300, 400, 500] [0, 0, 0, 0, 0])[1]? =
      some (([(0 : ℝ), 0, 0, 0, 0]).getD 1 0 * (10 : ℝ) ^ (-(10 : ℝ) / 20)) := by
  obtain ⟨b, hb, happ, hiff⟩ := C4_amended_halfopen_mask 10 12 (fun _ => [((1 : ℝ), 3)])
    [100, 200, 300, 400, 500] [0, 0, 0, 0, 0] rfl 1 (by norm_num)
  have hbf : b = false := hiff.mpr ⟨((1 : ℝ), (3 : ℝ)), List.mem_singleton.mpr rfl, by
    constructor
    · norm_num
    · norm_num⟩
  rw [hbf] at hb happ
  refine ⟨hb, ?_⟩
  simpa using happ

/-- C6: the null smoother returns its input unchanged; the fractional-octave
and erb smoothers return one output sample per grid point (same length as the
input), each output sample being the mean of its band's input samples, and
whenever that band is non-empty the output sample lies between the minimum and
the maximum of the input samples belonging to the band. -/
theorem C6_smoother_contracts (frequencies magnitudes : List ℝ) (fraction : ℕ) :
    NullSmoother.smooth frequencies magnitudes = magnitudes ∧
    (FractionalOctaveSmoother.smooth fraction frequencies magnitudes).length =
      frequencies.length ∧
    (ERBSmoother.smooth frequencies magnitudes).length = frequencies.length ∧
    (∀ (j : ℕ) (f_center : ℝ), frequencies[j]? = some f_center →
      (FractionalOctaveSmoother.smooth fraction frequencies magnitudes)[j]? =
        some (listMean (bandMags (octaveBand fraction f_center) frequencies magnitudes)) ∧
      (bandMags (octaveBand fraction f_center) frequencies magnitudes ≠ [] →
        listMin (bandMags (octaveBand fraction f_center) frequencies magnitudes) ≤
            listMean (bandMags (octaveBand fraction f_center) frequencies magnitudes) ∧
          listMean (bandMags (octaveBand fraction f_center) frequencies magnitudes) ≤
            listMax (bandMags (octaveBand fraction f_center) frequencies magnitudes))) ∧
    (∀ (j : ℕ) (f_center : ℝ), frequencies[j]? = some f_center →
      (ERBSmoother.smooth frequencies magnitudes)[j]? =
        some (listMean (bandMags (erbBand f_center) frequencies magnitudes)) ∧
      (bandMags (erbBand f_center) frequencies magnitudes ≠ [] →
        listMin (bandMags (erbBand f_center) frequencies magnitudes) ≤
            listMean (bandMags (erbBand f_center) frequencies magnitudes) ∧
          listMean (bandMags (erbBand f_center) frequencies magnitudes) ≤
            listMax (bandMags (erbBand f_center) frequencies magnitudes))) := by
  refine ⟨rfl, by simp [FractionalOctaveSmoother.smooth],
    by simp [ERBSmoother.smooth], ?_, ?_⟩
  · intro j fc hj
    refine ⟨?_, fun hne => ⟨listMin_le_listMean _ hne, listMean_le_listMax _ hne⟩⟩
    unfold FractionalOctaveSmoother.smooth
    rw [List.getElem?_map, hj]
    rfl
  · intro j fc hj
    refine ⟨?_, fun hne => ⟨listMin_le_listMean _ hne, listMean_le_listMax _ hne⟩⟩
    unfold ERBSmoother.smooth
    rw [List.getElem?_map, hj]
    rfl

/-- Witness for C6 at a concrete two-point grid. -/
theorem C6_smoother_contracts_witness :
    NullSmoother.smooth [(100 : ℝ), 200] [3, 5] = [3, 5] ∧
    (FractionalOctaveSmoother.smooth 3 [(100 : ℝ), 200] [3, 5])[0]? =
      some (listMean (bandMags (octaveBand 3 100) [100, 200] [3, 5])) ∧
    (ERBSmoother.smooth [(100 : ℝ), 200] [3, 5])[1]? =
      some (listMean (bandMags (erbBand 200) [100, 200] [3, 5])) := by
  obtain ⟨h1, _, _, h4, h5⟩ := C6_smoother_contracts [(100 : ℝ), 200] [3, 5] 3
  exact ⟨h1, (h4 0 100 rfl).1, (h5 1 200 rfl).1⟩

/-- C7: the band edges used by FractionalOctaveSmoother equal
`f_center * 2^(1/(2*fraction))` and `f_center / 2^(1/(2*fraction))`: the
factor `np.sqrt(2) ** (1/fraction)` equals `2^(1/(2*fraction))`, a band
membership test is equivalent to the spec's two-sided inequality, and an input
sample survives the smoother's band filter exactly when its frequency
satisfies that inequality. -/
theorem C7_octave_band_edges (fraction : ℕ) :
    octaveFd fraction = (2 : ℝ) ^ ((1 : ℝ) / (2 * (fraction : ℝ))) ∧
    (∀ f_center f : ℝ, octaveBand fraction f_center f ↔
      (f_center / (2 : ℝ) ^ ((1 : ℝ) / (2 * (fraction : ℝ))) ≤ f ∧
        f ≤ f_center * (2 : ℝ) ^ ((1 : ℝ) / (2 * (fraction : ℝ))))) ∧
    (∀ (f_center f m : ℝ) (frequencies magnitudes : List ℝ),
      ((f, m) ∈ (frequencies.zip magnitudes).filter
          (fun q => cdecide (octaveBand fraction f_center q.1)) ↔
        ((f, m) ∈ frequencies.zip magnitudes ∧
          f_center / (2 : ℝ) ^ ((1 : ℝ) / (2 * (fraction : ℝ))) ≤ f ∧
          f ≤ f_center * (2 : ℝ) ^ ((1 : ℝ) / (2 * (fraction : ℝ)))))) := by
  have hfd : octaveFd fraction = (2 : ℝ) ^ ((1 : ℝ) / (2 * (fraction : ℝ))) := by
    unfold octaveFd
    rw [Real.sqrt_eq_rpow, ← Real.rpow_mul (by norm_num : (0 : ℝ) ≤ 2)]
    congr 1
    rw [div_mul_div_comm, one_mul]
  refine ⟨hfd, fun fc f => by rw [octaveBand, hfd], ?_⟩
  intro fc f m frequencies magnitudes
  rw [List.mem_filter, cdecide_true_iff, octaveBand, hfd]

/-- Witness for C7 at fraction 3 and a concrete sample. -/
theorem C7_octave_band_edges_witness :
    octaveFd 3 = (2 : ℝ) ^ ((1 : ℝ) / (2 * ((3 : ℕ) : ℝ))) ∧
    (octaveBand 3 100 100 ↔
      ((100 : ℝ) / (2 : ℝ) ^ ((1 : ℝ) / (2 * ((3 : ℕ) : ℝ))) ≤ 100 ∧
        (100 : ℝ) ≤ 100 * (2 : ℝ) ^ ((1 : ℝ) / (2 * ((3 : ℕ) : ℝ))))) :=
  ⟨(C7_octave_band_edges 3).1, (C7_octave_band_edges 3).2.1 100 100⟩

theorem listMax_cons_cons (x y : ℝ) (t : List ℝ) :
    listMax (x :: y :: t) = max x (listMax (y :: t)) := rfl

theorem zipWith_mul_ones_ones (l : List ℝ) :
    List.zipWith (fun a b => a * b) (l.map fun _ => (1 : ℝ)) (l.map fun _ => (1 : ℝ)) =
      List.replicate l.length 1 := by
  induction l with
  | nil => rfl
  | cons x t ih => simpa [List.replicate_succ] using ih

theorem listMax_replicate_one : ∀ n : ℕ, n ≠ 0 → listMax (List.replicate n (1 : ℝ)) = 1 := by
  intro n
  induction n with
  | zero => intro h; exact absurd rfl h
  | succ m ih =>
    intro _
    cases hm : m with
    | zero => rfl
    | succ k =>
      subst hm
      rw [List.replicate_succ, List.replicate_succ, listMax_cons_cons,
        ← List.replicate_succ, ih (by omega), max_self]

theorem listMax_map_div (M : ℝ) (hM : 0 < M) :
    ∀ l : List ℝ, listMax (l.map fun c => c / M) = listMax l / M := by
  intro l
  induction l with
  | nil => simp [listMax, zero_div]
  | cons x t ih =>
    cases t with
    | nil => simp [listMax]
    | cons y t' =>
      simp only [List.map_cons] at ih ⊢
      rw [listMax_cons_cons, ih, listMax_cons_cons, max_div_div_right (le_of_lt hM)]

/-- C8: for every non-empty frequency grid, the target-curve designer under
the null bandpass returns the all-ones curve, and for any bandpass magnitude
response (in particular the butterworth response produced by the external
filter primitive) whose combined curve has a positive maximum, the returned
curve's maximum value is exactly 1 after the divide-by-maximum normalization. -/
theorem C8_target_curve_normalization (frequencies : List ℝ) (hne : frequencies ≠ []) :
    TargetCurveDesigner.design_curve NullBandpass.get_frequency_response frequencies =
      List.replicate frequencies.length 1 ∧
    ∀ bp : List ℝ → List ℝ,
      0 < listMax (List.zipWith (fun a b => a * b)
          (FlatTargetCurve.get_curve frequencies) (bp frequencies)) →
      listMax (TargetCurveDesigner.design_curve bp frequencies) = 1 := by
  constructor
  · simp only [TargetCurveDesigner.design_curve, NullBandpass.get_frequency_response,
      FlatTargetCurve.get_curve]
    rw [zipWith_mul_ones_ones,
      listMax_replicate_one _ (by simpa using hne), List.map_replicate]
    norm_num
  · intro bp hpos
    simp only [TargetCurveDesigner.design_curve] at hpos ⊢
    rw [listMax_map_div _ hpos, div_self (ne_of_gt hpos)]

/-- Witness for C8 at the one-point grid [100], using the null bandpass as the
response with positive maximum. -/
theorem C8_target_curve_normalization_witness :
    TargetCurveDesigner.design_curve NullBandpass.get_frequency_response [(100 : ℝ)] =
      List.replicate ([(100 : ℝ)]).length 1 ∧
    listMax (TargetCurveDesigner.design_curve NullBandpass.get_frequency_response
      [(100 : ℝ)]) = 1 := by
  refine ⟨(C8_target_curve_normalization [(100 : ℝ)] (by simp)).1, ?_⟩
  refine (C8_target_curve_normalization [(100 : ℝ)] (by simp)).2
    NullBandpass.get_frequency_response ?_
  show (0 : ℝ) < listMax (List.zipWith (fun a b => a * b) [1] [1])
  norm_num [listMax]

/-- C10: on a strictly positive frequency grid with fraction at least 1, every
averaging band of the fractional-octave smoother and of the erb smoother
contains at least its own center sample, so the filtered band list handed to
`np.mean` is never empty (no empty-band case is reachable). -/
theorem C10_band_contains_center (frequencies magnitudes : List ℝ) (fraction : ℕ)
    (hfrac : 1 ≤ fraction) (hpos : ∀ f ∈ frequencies, 0 < f)
    (hlen : frequencies.length = magnitudes.length) :
    ∀ (j : ℕ) (f_center : ℝ), frequencies[j]? = some f_center →
      bandMags (octaveBand fraction f_center) frequencies magnitudes ≠ [] ∧
      bandMags (erbBand f_center) frequencies magnitudes ≠ [] := by
  intro j fc hj
  obtain ⟨hjlt, hget⟩ := List.getElem?_eq_some_iff.mp hj
  have hjm : j < magnitudes.length := hlen ▸ hjlt
  have hmem : (fc, magnitudes[j]) ∈ frequencies.zip magnitudes := by
    have hz : (frequencies.zip magnitudes)[j]? = some (fc, magnitudes[j]) := by
      rw [List.getElem?_zip_eq_some]
      exact ⟨hj, List.getElem?_eq_getElem hjm⟩
    obtain ⟨hlt, heq⟩ := List.getElem?_eq_some_iff.mp hz
    exact heq ▸ List.getElem_mem hlt
  have hfc : 0 < fc := hpos fc (hget ▸ List.getElem_mem hjlt)
  have hfd : (1 : ℝ) ≤ octaveFd fraction := by
    unfold octaveFd
    apply Real.one_le_rpow
    · rw [show (1 : ℝ) = Real.sqrt 1 from Real.sqrt_one.symm]
      exact Real.sqrt_le_sqrt (by norm_num)
    · positivity
  have hbw : 0 ≤ erbBandwidth fc / 2 := by
    unfold erbBandwidth
    nlinarith [hfc]
  constructor
  · have hmemf : (fc, magnitudes[j]) ∈ (frequencies.zip magnitudes).filter
        (fun q => cdecide (octaveBand fraction fc q.1)) := by
      rw [List.mem_filter]
      refine ⟨hmem, (cdecide_true_iff _).mpr ?_⟩
      exact ⟨div_le_self (le_of_lt hfc) hfd, le_mul_of_one_le_right (le_of_lt hfc) hfd⟩
    unfold bandMags
    exact List.ne_nil_of_mem (List.mem_map_of_mem Prod.snd hmemf)
  · have hmemf : (fc, magnitudes[j]) ∈ (frequencies.zip magnitudes).filter
        (fun q => cdecide (erbBand fc q.1)) := by
      rw [List.mem_filter]
      refine ⟨hmem, (cdecide_true_iff _).mpr ?_⟩
      exact ⟨by linarith, by linarith⟩
    unfold bandMags
    exact List.ne_nil_of_mem (List.mem_map_of_mem Prod.snd hmemf)

/-- Witness for C10 at the grid [100, 200] with fraction 1, index 0. -/
theorem C10_band_contains_center_witness :
    bandMags (octaveBand 1 100) [(100 : ℝ), 200] [0, 0] ≠ [] ∧
    bandMags (erbBand 100) [(100 : ℝ), 200] [0, 0] ≠ [] :=
  C10_band_contains_center [(100 : ℝ), 200] [0, 0] 1 (by norm_num)
    (by
      intro f hf
      simp only [List.mem_cons, List.mem_singleton] at hf
      rcases hf with rfl | hf
      · norm_num
      · simp at hf
        rw [hf]
        norm_num)
    rfl 0 100 rfl

end Neumann
